import Mathlib

/-!
Verification development for the aeroshare repository: a shallow embedding of
the signaling server's room registry (`src/backend/src/roomManager.ts`, plus
the message dispatch in the server entry point) and of the client-side WebRTC
hook (`src/frontend/src/hooks/useWebRTC.ts`), with theorems about the claims
of the specification.

Modelling conventions:
* JS `Map<string, T>` becomes an association list `List (String × T)` with
  JS `Map` semantics: `set` replaces in place (keeping insertion order) or
  appends, `delete` removes the entry, iteration follows list order.
* A `Room.peers` map stores `peer-id → socket`; since the key is the socket's
  own id, we store the ordered list of ids and look sockets up in the world
  state (`Server.socks`).
* Machine integers are `Nat` (all quantities involved are nonnegative and far
  from overflow); `Date.now()` values are passed in explicitly as `now`.
* `ws.send(...)` becomes appending a `(recipient, message)` pair to `outbox`.
* Opaque WebRTC payloads (session descriptions, ICE candidates) are modelled
  as `Nat` — the server never inspects them.
-/

set_option autoImplicit false

namespace Aeroshare

/-! ## Association-list model of JS `Map<string, α>` -/

/-- `Map.get`: first entry with the given key. -/
def alookup {α : Type} (k : String) : List (String × α) → Option α
  | [] => none
  | kv :: rest => if kv.1 = k then some kv.2 else alookup k rest

/-- `Map.set`: replace in place if the key is present (JS keeps the original
insertion position), otherwise append. -/
def aset {α : Type} (k : String) (v : α) (l : List (String × α)) : List (String × α) :=
  if k ∈ l.map Prod.fst then
    l.map (fun kv => if kv.1 = k then (k, v) else kv)
  else
    l ++ [(k, v)]

/-- `Map.delete`: drop the entry with the given key. -/
def aerase {α : Type} (k : String) (l : List (String × α)) : List (String × α) :=
  l.filter (fun kv => kv.1 ≠ k)

theorem alookup_append {α : Type} (k : String) (l₁ l₂ : List (String × α)) :
    alookup k (l₁ ++ l₂) =
      match alookup k l₁ with
      | some v => some v
      | none => alookup k l₂ := by
  induction l₁ with
  | nil => simp [alookup]
  | cons kv rest ih =>
    by_cases hk : kv.1 = k
    · simp [alookup, hk]
    · simpa [alookup, hk] using ih

theorem alookup_eq_none_of_not_mem_keys {α : Type} (k : String) (l : List (String × α))
    (h : k ∉ l.map Prod.fst) : alookup k l = none := by
  induction l with
  | nil => rfl
  | cons kv rest ih =>
    simp only [List.map_cons, List.mem_cons, not_or] at h
    have hne : kv.1 ≠ k := fun he => h.1 he.symm
    simp [alookup, hne, ih h.2]

theorem alookup_replace_self {α : Type} (k : String) (v : α) (l : List (String × α))
    (h : k ∈ l.map Prod.fst) :
    alookup k (l.map (fun kv => if kv.1 = k then (k, v) else kv)) = some v := by
  induction l with
  | nil => simp at h
  | cons kv rest ih =>
    by_cases hk : kv.1 = k
    · simp [alookup, hk]
    · simp only [List.map_cons, List.mem_cons] at h
      rcases h with h | h
      · exact absurd h.symm hk
      · simpa [alookup, hk] using ih h

theorem alookup_replace_ne {α : Type} (k k' : String) (v : α) (l : List (String × α))
    (h : k' ≠ k) :
    alookup k' (l.map (fun kv => if kv.1 = k then (k, v) else kv)) = alookup k' l := by
  induction l with
  | nil => rfl
  | cons kv rest ih =>
    by_cases hk : kv.1 = k
    · simp only [List.map_cons, if_pos hk, alookup, Ne.symm h, if_neg, hk ▸ Ne.symm h]
      simpa [alookup, hk, Ne.symm h] using ih
    · by_cases hk' : kv.1 = k'
      · simp [alookup, hk, hk', h]
      · simpa [alookup, hk, hk'] using ih

theorem alookup_aset_self {α : Type} (k : String) (v : α) (l : List (String × α)) :
    alookup k (aset k v l) = some v := by
  unfold aset
  split
  case isTrue h => exact alookup_replace_self k v l h
  case isFalse h =>
    rw [alookup_append, alookup_eq_none_of_not_mem_keys k l h]
    simp [alookup]

theorem alookup_aset_ne {α : Type} (k k' : String) (v : α) (l : List (String × α))
    (h : k' ≠ k) : alookup k' (aset k v l) = alookup k' l := by
  unfold aset
  split
  · exact alookup_replace_ne k k' v l h
  · rw [alookup_append]
    cases hl : alookup k' l with
    | some w => simp
    | none => simp [alookup, Ne.symm h]

theorem alookup_aerase_self {α : Type} (k : String) (l : List (String × α)) :
    alookup k (aerase k l) = none := by
  induction l with
  | nil => rfl
  | cons kv rest ih =>
    by_cases hk : kv.1 = k
    · simpa [aerase, hk] using ih
    · simpa [aerase, alookup, List.filter_cons, hk] using ih

theorem alookup_aerase_ne {α : Type} (k k' : String) (l : List (String × α))
    (h : k' ≠ k) : alookup k' (aerase k l) = alookup k' l := by
  induction l with
  | nil => rfl
  | cons kv rest ih =>
    by_cases hk : kv.1 = k
    · simpa [aerase, alookup, List.filter_cons, hk, Ne.symm h] using ih
    · by_cases hk' : kv.1 = k'
      · simp [aerase, alookup, List.filter_cons, hk, hk', h]
      · simpa [aerase, alookup, List.filter_cons, hk, hk'] using ih

theorem mem_aset_iff {α : Type} (k : String) (v : α) (l : List (String × α))
    (kv : String × α) :
    kv ∈ aset k v l ↔ kv = (k, v) ∨ (kv ∈ l ∧ kv.1 ≠ k) := by
  unfold aset
  split
  case isTrue h =>
    simp only [List.mem_map]
    constructor
    · rintro ⟨kv0, hmem, heq⟩
      by_cases hk : kv0.1 = k
      · left; simp [hk] at heq; exact heq.symm
      · right; simp [hk] at heq; exact ⟨heq ▸ hmem, heq ▸ hk⟩
    · rintro (rfl | ⟨hmem, hne⟩)
      · obtain ⟨kv0, hmem0, hk0⟩ := List.mem_map.mp h
        exact ⟨kv0, hmem0, by simp [hk0]⟩
      · exact ⟨kv, hmem, by simp [hne]⟩
  case isFalse h =>
    simp only [List.mem_append, List.mem_singleton]
    constructor
    · rintro (hmem | rfl)
      · refine Or.inr ⟨hmem, fun hk => h ?_⟩
        exact List.mem_map.mpr ⟨kv, hmem, hk⟩
      · exact Or.inl rfl
    · rintro (rfl | ⟨hmem, _⟩)
      · exact Or.inr rfl
      · exact Or.inl hmem

theorem keys_aset_of_mem {α : Type} (k : String) (v : α) (l : List (String × α))
    (h : k ∈ l.map Prod.fst) : (aset k v l).map Prod.fst = l.map Prod.fst := by
  unfold aset
  rw [if_pos h, List.map_map]
  apply List.map_congr_left
  intro kv _
  by_cases hk : kv.1 = k <;> simp [hk]

theorem keys_aset_of_not_mem {α : Type} (k : String) (v : α) (l : List (String × α))
    (h : k ∉ l.map Prod.fst) : (aset k v l).map Prod.fst = l.map Prod.fst ++ [k] := by
  unfold aset
  rw [if_neg h, List.map_append]
  rfl

/-! ## Server-side data model (`src/backend/src/types.ts`)

`Sock` models the fields of `ExtendedWebSocket` that the room manager and the
message dispatcher read or write: `id`, `username`, `roomId`, and the
`readyState === OPEN` check (the `isAlive` heartbeat flag plays no role in the
claims below). `RoomM` models `Room`: its `peers` map stores
`peer-id → socket`, so we keep the insertion-ordered id list and resolve
sockets through `Server.socks`. -/

/-- The fields of `ExtendedWebSocket` used by the room manager. -/
structure Sock where
  sid : String
  username : Option String
  wsRoomId : Option String
  isOpen : Bool
deriving DecidableEq

/-- `Room` from `types.ts`: id, peers map (as ordered id list), creation time. -/
structure RoomM where
  rid : String
  peers : List String
  createdAt : Nat
deriving DecidableEq

/-- `PeerInfo` from `types.ts`. -/
structure PeerInfoM where
  pid : String
  username : Option String
  joinedAt : Nat
deriving DecidableEq

/-- The three client-to-client message tags relayed by the server. -/
inductive SigType where
  | offer
  | answer
  | candidate
deriving DecidableEq

/-- Server-originated / forwarded messages written to a socket.  `fwd` is the
re-stamped offer/answer/candidate envelope; its opaque WebRTC payload is a
`Nat`. -/
inductive SMsg where
  | peerJoined (roomId : String) (info : PeerInfoM)
  | peerList (roomId : String) (payload : List PeerInfoM)
  | peerLeft (roomId : String) (peerId : String)
  | fwd (t : SigType) (roomId senderId targetId : String) (payload : Nat)
  | errMsg (roomId : String) (code : String)
deriving DecidableEq

/-- The whole server state: the `RoomManager`'s `rooms` map, the set of live
connections, and the ordered log of `ws.send` calls `(recipient id, message)`. -/
structure Server where
  rooms : List (String × RoomM)
  socks : List (String × Sock)
  outbox : List (String × SMsg)
deriving DecidableEq

/-- `ws.username` of the socket with the given id. -/
def usernameOf (s : Server) (pid : String) : Option String :=
  (alookup pid s.socks).bind (fun w => w.username)

/-- `ws.readyState === ws.OPEN` of the socket with the given id (`false` if the
socket is unknown; in the source the room's map stores the socket itself, so
the lookup always succeeds for room members). -/
def sockOpen (s : Server) (pid : String) : Bool :=
  match alookup pid s.socks with
  | some w => w.isOpen
  | none => false

/-- Set `ws.roomId` of one socket. -/
def setSockRoom (s : Server) (pid : String) (r : Option String) : Server :=
  { s with socks := s.socks.map (fun kv =>
      (kv.1, if kv.1 = pid then { kv.2 with wsRoomId := r } else kv.2)) }

/-- Set `ws.username` of one socket. -/
def setSockUsername (s : Server) (pid : String) (u : Option String) : Server :=
  { s with socks := s.socks.map (fun kv =>
      (kv.1, if kv.1 = pid then { kv.2 with username := u } else kv.2)) }

/-! ## RoomManager (`src/backend/src/roomManager.ts`) -/

/-- `RoomManager.createRoom`: unconditionally builds a fresh room with an empty
peer map and the current timestamp and stores it under `roomId` (overwriting any
existing room — there is no existence check in the source). -/
def createRoom (s : Server) (roomId : String) (now : Nat) : Server :=
  { s with rooms := aset roomId ⟨roomId, [], now⟩ s.rooms }

/-- `RoomManager.getPeerList`: every member of the room, in map order, with its
socket's username; `joinedAt` is `Date.now()` at list-building time. -/
def getPeerList (s : Server) (roomId : String) (now : Nat) : List PeerInfoM :=
  match alookup roomId s.rooms with
  | none => []
  | some r => r.peers.map (fun pid => ⟨pid, usernameOf s pid, now⟩)

/-- `RoomManager.broadcastToRoom`: send to every member of the room except
`excludePeerId`, skipping sockets that are not `OPEN`. -/
def broadcastToRoom (s : Server) (roomId : String) (m : SMsg)
    (excludePeerId : Option String) : Server :=
  match alookup roomId s.rooms with
  | none => s
  | some r =>
    let sends := (r.peers.filter (fun pid =>
      if excludePeerId = some pid then false else sockOpen s pid)).map (fun pid => (pid, m))
    { s with outbox := s.outbox ++ sends }

/-- `Map.set` on a room's peers map: the key is the peer id (the value is the
socket itself, resolved through `Server.socks`). -/
def pinsert (pid : String) (ps : List String) : List String :=
  if pid ∈ ps then ps else ps ++ [pid]

/-- A single `ws.send(...)` to one socket. -/
def pushOut (s : Server) (pid : String) (m : SMsg) : Server :=
  { s with outbox := s.outbox ++ [(pid, m)] }

/-- `RoomManager.joinRoom`: auto-create the room if absent, add the peer, set
`ws.roomId`, broadcast `peer-joined` to the others, then send the (freshly
recomputed, so joiner-inclusive) peer list to the new member. -/
def joinRoom (s : Server) (roomId wsId : String) (now : Nat) : Server :=
  let s1 := if (alookup roomId s.rooms).isSome then s else createRoom s roomId now
  let s2 := match alookup roomId s1.rooms with
    | some r => { s1 with rooms := aset roomId { r with peers := pinsert wsId r.peers } s1.rooms }
    | none => s1
  let s3 := setSockRoom s2 wsId (some roomId)
  let s4 := broadcastToRoom s3 roomId
    (SMsg.peerJoined roomId ⟨wsId, usernameOf s3 wsId, now⟩) (some wsId)
  pushOut s4 wsId (SMsg.peerList roomId (getPeerList s4 roomId now))

theorem pushOut_rooms (s : Server) (pid : String) (m : SMsg) :
    (pushOut s pid m).rooms = s.rooms := rfl

theorem pushOut_socks (s : Server) (pid : String) (m : SMsg) :
    (pushOut s pid m).socks = s.socks := rfl

/-- `RoomManager.leaveRoom`: no-op without a `ws.roomId` or a live room;
otherwise remove the peer, broadcast `peer-left` to the remaining members,
delete the room when it became empty, and clear `ws.roomId`. -/
def leaveRoom (s : Server) (wsId : String) : Server :=
  match alookup wsId s.socks with
  | none => s
  | some w =>
    match w.wsRoomId with
    | none => s
    | some roomId =>
      match alookup roomId s.rooms with
      | none => s
      | some r =>
        let remaining := r.peers.erase wsId
        let s1 := { s with rooms := aset roomId { r with peers := remaining } s.rooms }
        let s2 := broadcastToRoom s1 roomId (SMsg.peerLeft roomId wsId) none
        let s3 := if remaining = [] then { s2 with rooms := aerase roomId s2.rooms } else s2
        setSockRoom s3 wsId none

/-- `RoomManager.sendToPeer`: `false` if the room is missing, the target is not
a member, or the target socket is not `OPEN`; otherwise deliver and return
`true`. -/
def sendToPeer (s : Server) (roomId peerId : String) (m : SMsg) : Server × Bool :=
  match alookup roomId s.rooms with
  | none => (s, false)
  | some r =>
    if peerId ∈ r.peers then
      match alookup peerId s.socks with
      | some w =>
        if w.isOpen then ({ s with outbox := s.outbox ++ [(peerId, m)] }, true)
        else (s, false)
      | none => (s, false)
    else (s, false)

/-- 24 hours in milliseconds (`maxAge` in `cleanupStaleRooms`). -/
def staleMaxAge : Nat := 24 * 60 * 60 * 1000

/-- `RoomManager.cleanupStaleRooms`: delete every room that is empty and whose
age strictly exceeds 24 hours. -/
def cleanupStaleRooms (s : Server) (now : Nat) : Server :=
  { s with rooms := s.rooms.filter (fun kv =>
      !(kv.2.peers.isEmpty && decide (now - kv.2.createdAt > staleMaxAge))) }

/-! ## Message dispatch (`handleSignalingMessage` in the server entry point) -/

/-- Inbound client messages.  The dispatcher never trusts the client-supplied
`senderId`, so the `sig` constructor records it separately as `claimedSenderId`
and the handler ignores it. -/
inductive InMsg where
  | join (roomId : String) (username : Option String)
  | leave (roomId : String)
  | sig (t : SigType) (roomId claimedSenderId : String) (targetId : Option String) (payload : Nat)

/-- The fallback username `` `Peer-${ws.id.substring(0, 4)}` ``. -/
def defaultName (wsId : String) : String := "Peer-" ++ wsId.take 4

/-- `sendError`: an `error{code}` message to the originating socket, stamped
with `ws.roomId || ''`. -/
def sendError (s : Server) (wsId code : String) : Server :=
  let rid := match alookup wsId s.socks with
    | some w => w.wsRoomId.getD ""
    | none => ""
  { s with outbox := s.outbox ++ [(wsId, SMsg.errMsg rid code)] }

/-- `joinPayload?.username || default`: JS `||` also rejects the empty string. -/
def resolveUsername (wsId : String) (u : Option String) : String :=
  match u with
  | some name => if name = "" then defaultName wsId else name
  | none => defaultName wsId

/-- `handleSignalingMessage`: join / leave / targeted relay of
offer/answer/candidate with sender re-stamping and error reporting. -/
def handleSignalingMessage (s : Server) (wsId : String) (m : InMsg) (now : Nat) : Server :=
  match m with
  | InMsg.join roomId uname =>
    joinRoom (setSockUsername s wsId (some (resolveUsername wsId uname))) roomId wsId now
  | InMsg.leave _ => leaveRoom s wsId
  | InMsg.sig t roomId _ targetId payload =>
    match targetId with
    | none => sendError s wsId "MISSING_TARGET"
    | some tid =>
      let res := sendToPeer s roomId tid (SMsg.fwd t roomId wsId tid payload)
      if res.2 then res.1 else sendError res.1 wsId "PEER_NOT_FOUND"

/-! ## Basic facts about the server operations -/

theorem broadcastToRoom_rooms (s : Server) (roomId : String) (m : SMsg)
    (e : Option String) : (broadcastToRoom s roomId m e).rooms = s.rooms := by
  unfold broadcastToRoom
  cases alookup roomId s.rooms <;> rfl

theorem broadcastToRoom_socks (s : Server) (roomId : String) (m : SMsg)
    (e : Option String) : (broadcastToRoom s roomId m e).socks = s.socks := by
  unfold broadcastToRoom
  cases alookup roomId s.rooms <;> rfl

theorem setSockRoom_rooms (s : Server) (pid : String) (r : Option String) :
    (setSockRoom s pid r).rooms = s.rooms := rfl

theorem alookup_setRoomMap (pid : String) (r : Option String) (q : String)
    (l : List (String × Sock)) :
    alookup q (l.map (fun kv =>
        (kv.1, if kv.1 = pid then { kv.2 with wsRoomId := r } else kv.2))) =
      (alookup q l).map (fun v => if q = pid then { v with wsRoomId := r } else v) := by
  induction l with
  | nil => rfl
  | cons kv rest ih =>
    by_cases hq : kv.1 = q
    · simp [alookup, hq]
    · simpa [alookup, hq] using ih

theorem usernameOf_setSockRoom (s : Server) (pid : String) (r : Option String)
    (q : String) : usernameOf (setSockRoom s pid r) q = usernameOf s q := by
  unfold usernameOf setSockRoom
  simp only [alookup_setRoomMap]
  cases alookup q s.socks with
  | none => rfl
  | some w => by_cases hq : q = pid <;> simp [hq]

theorem sockOpen_setSockRoom (s : Server) (pid : String) (r : Option String)
    (q : String) : sockOpen (setSockRoom s pid r) q = sockOpen s q := by
  unfold sockOpen setSockRoom
  simp only [alookup_setRoomMap]
  cases alookup q s.socks with
  | none => rfl
  | some w => by_cases hq : q = pid <;> simp [hq]

/-- The peers of the room named `roomId` before an operation (`[]` if absent). -/
def priorPeers (s : Server) (roomId : String) : List String :=
  match alookup roomId s.rooms with
  | some r => r.peers
  | none => []

theorem usernameOf_broadcast (s : Server) (roomId : String) (m : SMsg)
    (e : Option String) (q : String) :
    usernameOf (broadcastToRoom s roomId m e) q = usernameOf s q := by
  unfold usernameOf
  rw [broadcastToRoom_socks]

/-! ## C1 — the peer list sent to a joining member -/

/-- A world with a single open connection `"a"` and no rooms. -/
def c1srv : Server := ⟨[], [("a", ⟨"a", some "u", none, true⟩)], []⟩

/-- C1 counterexample: when `"a"` joins the previously nonexistent room `"r"`,
the `peer-list` sent to `"a"` is `[{id: "a", …}]` — it contains the joining
member itself — whereas the claim requires the prior members excluding the
joiner, i.e. `[]`.  (`getPeerList` runs after `room.peers.set(ws.id, ws)` and
does not filter out `ws.id`.) -/
theorem joinRoom_peerList_cex :
    (joinRoom c1srv "r" "a" 5).outbox.getLast? =
      some ("a", SMsg.peerList "r" [⟨"a", some "u", 5⟩]) ∧
    ([(⟨"a", some "u", 5⟩ : PeerInfoM)] : List PeerInfoM) ≠ [] := by decide

/-- C1 (amended): the `peer-list` sent to the member that just joined contains
exactly the members of the room *after* the join — every prior member followed
by the joining member itself — one entry per member, carrying that member's id
and its socket's username. -/
theorem joinRoom_peerList_spec (s : Server) (roomId wsId : String) (now : Nat)
    (hfresh : wsId ∉ priorPeers s roomId) :
    (joinRoom s roomId wsId now).outbox.getLast? =
      some (wsId, SMsg.peerList roomId
        ((priorPeers s roomId ++ [wsId]).map (fun p => ⟨p, usernameOf s p, now⟩))) := by
  unfold priorPeers at hfresh ⊢
  unfold joinRoom
  cases h : alookup roomId s.rooms with
  | some r =>
    rw [h] at hfresh
    simp only [h, Option.isSome_some, if_true, pushOut, List.getLast?_concat,
      Option.some.injEq, Prod.mk.injEq, true_and, SMsg.peerList.injEq]
    unfold getPeerList
    rw [broadcastToRoom_rooms, setSockRoom_rooms]
    show (match alookup roomId (aset roomId { r with peers := pinsert wsId r.peers } s.rooms)
        with
      | none => []
      | some rr => rr.peers.map _) = _
    rw [alookup_aset_self]
    show (pinsert wsId r.peers).map _ = _
    rw [pinsert, if_neg hfresh]
    apply List.map_congr_left
    intro p _
    rw [usernameOf_broadcast, usernameOf_setSockRoom]
    rfl
  | none =>
    rw [h] at hfresh
    simp only [h, Option.isSome_none, Bool.false_eq_true, if_false, createRoom,
      alookup_aset_self, pushOut, List.getLast?_concat, Option.some.injEq, Prod.mk.injEq,
      true_and, SMsg.peerList.injEq]
    unfold getPeerList
    rw [broadcastToRoom_rooms, setSockRoom_rooms]
    show (match alookup roomId (aset roomId { (⟨roomId, [], now⟩ : RoomM) with
        peers := pinsert wsId [] } (aset roomId (⟨roomId, [], now⟩ : RoomM) s.rooms)) with
      | none => []
      | some rr => rr.peers.map _) = _
    rw [alookup_aset_self]
    show (pinsert wsId []).map _ = _
    rw [pinsert, if_neg (by simp)]
    apply List.map_congr_left
    intro p _
    rw [usernameOf_broadcast, usernameOf_setSockRoom]
    rfl

/-- A world with room `"r"` containing `"a"`, and a second connection `"b"`
about to join. -/
def c1joined : Server :=
  ⟨[("r", ⟨"r", ["a"], 3⟩)],
   [("a", ⟨"a", some "u", some "r", true⟩), ("b", ⟨"b", some "v", none, true⟩)], []⟩

/-- Witness for `joinRoom_peerList_spec` at a concrete input. -/
theorem joinRoom_peerList_spec_witness :
    ("b" ∉ priorPeers c1joined "r") ∧
    (joinRoom c1joined "r" "b" 7).outbox.getLast? =
      some ("b", SMsg.peerList "r"
        ((priorPeers c1joined "r" ++ ["b"]).map (fun p => ⟨p, usernameOf c1joined p, 7⟩))) :=
  ⟨by decide, joinRoom_peerList_spec c1joined "r" "b" 7 (by decide)⟩

/-! ## C2 — `createRoom` is not idempotent -/

/-- A registry in which room `"r"` already exists, with one member and
creation time `0`. -/
def c2srv : Server :=
  ⟨[("r", ⟨"r", ["a"], 0⟩)], [("a", ⟨"a", some "u", some "r", true⟩)], []⟩

/-- C2 counterexample: calling `createRoom` on an id that already exists does
not return the existing room unchanged — it replaces it with a fresh room
(empty peer map, new timestamp), so the registry state changes. -/
theorem createRoom_not_idempotent_cex :
    alookup "r" (createRoom c2srv "r" 5).rooms = some ⟨"r", [], 5⟩ ∧
    alookup "r" (createRoom c2srv "r" 5).rooms ≠ alookup "r" c2srv.rooms ∧
    (createRoom c2srv "r" 5).rooms ≠ c2srv.rooms := by decide

/-- C2 (amended): `createRoom(id)` always stores a fresh room under `id` — an
empty member map with the current timestamp — replacing any existing room with
that id; all other rooms, the sockets and the outbox are untouched.  (The
idempotent behaviour described by the spec exists only in `joinRoom`'s
auto-create path, which calls `createRoom` only when the room is absent.) -/
theorem createRoom_overwrites (s : Server) (roomId : String) (now : Nat) :
    alookup roomId (createRoom s roomId now).rooms = some ⟨roomId, [], now⟩ ∧
    (∀ r', r' ≠ roomId → alookup r' (createRoom s roomId now).rooms = alookup r' s.rooms) ∧
    (createRoom s roomId now).socks = s.socks ∧
    (createRoom s roomId now).outbox = s.outbox := by
  refine ⟨alookup_aset_self _ _ _, fun r' h => alookup_aset_ne _ _ _ _ h, rfl, rfl⟩

/-- Witness for `createRoom_overwrites` at a concrete input. -/
theorem createRoom_overwrites_witness :
    alookup "r" (createRoom c2srv "r" 5).rooms = some ⟨"r", [], 5⟩ ∧
    alookup "x" (createRoom c2srv "r" 5).rooms = alookup "x" c2srv.rooms :=
  ⟨(createRoom_overwrites c2srv "r" 5).1,
   (createRoom_overwrites c2srv "r" 5).2.1 "x" (by decide)⟩

/-! ## C10 — the stale-room sweep -/

/-- C10: the sweep keeps exactly the rooms that are non-empty or not older than
the 24-hour threshold: an empty room whose age strictly exceeds `staleMaxAge`
is deleted, and a room with at least one member survives regardless of age. -/
theorem cleanupStaleRooms_spec (s : Server) (now : Nat) (kv : String × RoomM) :
    kv ∈ (cleanupStaleRooms s now).rooms ↔
      kv ∈ s.rooms ∧ ¬(kv.2.peers = [] ∧ now - kv.2.createdAt > staleMaxAge) := by
  show kv ∈ s.rooms.filter _ ↔ _
  rw [List.mem_filter]
  constructor
  · rintro ⟨hmem, hcond⟩
    refine ⟨hmem, fun hc => ?_⟩
    rw [hc.1] at hcond
    simp [hc.2] at hcond
  · rintro ⟨hmem, hnot⟩
    refine ⟨hmem, ?_⟩
    by_cases he : kv.2.peers = []
    · have hna : ¬(now - kv.2.createdAt > staleMaxAge) := fun hgt => hnot ⟨he, hgt⟩
      simp [he, hna]
    · simp [List.isEmpty_iff, he]

/-- Witness for `cleanupStaleRooms_spec`: a stale empty room is removed while an
old room that still has a member survives. -/
theorem cleanupStaleRooms_spec_witness :
    (("old", (⟨"old", [], 0⟩ : RoomM)) ∉
      (cleanupStaleRooms ⟨[("old", ⟨"old", [], 0⟩), ("busy", ⟨"busy", ["a"], 0⟩)], [], []⟩
        (staleMaxAge + 1)).rooms) ∧
    (("busy", (⟨"busy", ["a"], 0⟩ : RoomM)) ∈
      (cleanupStaleRooms ⟨[("old", ⟨"old", [], 0⟩), ("busy", ⟨"busy", ["a"], 0⟩)], [], []⟩
        (staleMaxAge + 1)).rooms) := by
  constructor
  · intro hmem
    have h := (cleanupStaleRooms_spec ⟨[("old", ⟨"old", [], 0⟩), ("busy", ⟨"busy", ["a"], 0⟩)],
      [], []⟩ (staleMaxAge + 1) ("old", ⟨"old", [], 0⟩)).mp hmem
    exact h.2 (by decide)
  · exact (cleanupStaleRooms_spec ⟨[("old", ⟨"old", [], 0⟩), ("busy", ⟨"busy", ["a"], 0⟩)],
      [], []⟩ (staleMaxAge + 1) ("busy", ⟨"busy", ["a"], 0⟩)).mpr ⟨by decide, by decide⟩

/-! ## C7 — targeted relay of offer/answer/candidate -/

/-- C7: for a targeted `offer`/`answer`/`candidate`:
* when the room is missing, the target is not a member, or the target's socket
  is not `OPEN`, then `sendToPeer` returns `false` and the sender receives
  `error{PEER_NOT_FOUND}`;
* when the target is a member with an `OPEN` socket, the message is delivered
  to the target with its opaque payload unmodified and `senderId` re-stamped to
  the sending connection's server-assigned id (the client-supplied sender id is
  ignored). -/
theorem relay_targeted_spec (s : Server) (wsId : String) (t : SigType)
    (roomId claimed tid : String) (payload now : Nat) :
    ((alookup roomId s.rooms = none ∨
      (∃ r, alookup roomId s.rooms = some r ∧ (tid ∉ r.peers ∨ sockOpen s tid = false))) →
      (sendToPeer s roomId tid (SMsg.fwd t roomId wsId tid payload)).2 = false ∧
      handleSignalingMessage s wsId (InMsg.sig t roomId claimed (some tid) payload) now =
        sendError s wsId "PEER_NOT_FOUND") ∧
    (∀ r, alookup roomId s.rooms = some r → tid ∈ r.peers → sockOpen s tid = true →
      (sendToPeer s roomId tid (SMsg.fwd t roomId wsId tid payload)).2 = true ∧
      handleSignalingMessage s wsId (InMsg.sig t roomId claimed (some tid) payload) now =
        { s with outbox := s.outbox ++ [(tid, SMsg.fwd t roomId wsId tid payload)] }) := by
  constructor
  · intro hbad
    have hs : sendToPeer s roomId tid (SMsg.fwd t roomId wsId tid payload) = (s, false) := by
      rcases hbad with hnone | ⟨r, hr, hmem | hopen⟩
      · unfold sendToPeer
        rw [hnone]
      · unfold sendToPeer
        simp only [hr]
        rw [if_neg hmem]
      · unfold sockOpen at hopen
        unfold sendToPeer
        simp only [hr]
        by_cases hmem : tid ∈ r.peers
        · rw [if_pos hmem]
          cases hw : alookup tid s.socks with
          | none => simp only [hw]
          | some w =>
            simp only [hw] at hopen
            simp only [hw]
            simp [hopen]
        · rw [if_neg hmem]
    refine ⟨by rw [hs], ?_⟩
    simp [handleSignalingMessage, hs]
  · intro r hr hmem hopen
    unfold sockOpen at hopen
    cases hw : alookup tid s.socks with
    | none => simp [hw] at hopen
    | some w =>
      simp only [hw] at hopen
      have hs : sendToPeer s roomId tid (SMsg.fwd t roomId wsId tid payload) =
          ({ s with outbox := s.outbox ++ [(tid, SMsg.fwd t roomId wsId tid payload)] }, true) := by
        unfold sendToPeer
        simp only [hr]
        rw [if_pos hmem]
        simp only [hw]
        simp [hopen]
      refine ⟨by rw [hs], ?_⟩
      simp [handleSignalingMessage, hs]

/-- A world for the C7 witness: room `"r"` with members `"a"` (open) and a
target `"b"` (open), plus a room-less message to a missing target. -/
def c7srv : Server :=
  ⟨[("r", ⟨"r", ["a", "b"], 0⟩)],
   [("a", ⟨"a", some "u", some "r", true⟩), ("b", ⟨"b", some "v", some "r", true⟩)], []⟩

/-- Witness for `relay_targeted_spec`: an offer from `"a"` to the present open
member `"b"` is forwarded with re-stamped sender, and an offer to the absent
`"z"` produces `PEER_NOT_FOUND`. -/
theorem relay_targeted_spec_witness :
    (handleSignalingMessage c7srv "a" (InMsg.sig SigType.offer "r" "spoofed" (some "b") 42) 9 =
      { c7srv with outbox := [("b", SMsg.fwd SigType.offer "r" "a" "b" 42)] }) ∧
    (handleSignalingMessage c7srv "a" (InMsg.sig SigType.offer "r" "spoofed" (some "z") 42) 9 =
      sendError c7srv "a" "PEER_NOT_FOUND") :=
  ⟨((relay_targeted_spec c7srv "a" SigType.offer "r" "spoofed" "b" 42 9).2
      ⟨"r", ["a", "b"], 0⟩ (by decide) (by decide) (by decide)).2,
   ((relay_targeted_spec c7srv "a" SigType.offer "r" "spoofed" "z" 42 9).1
      (Or.inr ⟨⟨"r", ["a", "b"], 0⟩, by decide, Or.inl (by decide)⟩)).2⟩

/-! ## C8 — leaving a room -/

theorem count_pair_map (ps : List String) (p : String) (m : SMsg) :
    ((ps.map (fun q => (q, m))).count (p, m)) = ps.count p := by
  induction ps with
  | nil => rfl
  | cons q rest ih =>
    by_cases hq : q = p <;>
      simp [List.count_cons, hq, ih, Prod.ext_iff]

/-- C8: when a member with `ws.roomId = roomId` leaves (the same
`RoomManager.leaveRoom` path serves the explicit `leave` message and the
transport `close`/`error` handlers), and every remaining member's socket is
open (`broadcastToRoom` skips non-`OPEN` sockets — the spec's best-effort
fan-out), then: the new outbox entries are exactly one `peer-left{wsId}` per
remaining member, each remaining member counts exactly one such message, and
the room is deleted from the registry iff no member remains. -/
theorem leaveRoom_spec (s : Server) (wsId roomId : String) (w : Sock) (r : RoomM)
    (hw : alookup wsId s.socks = some w)
    (hwr : w.wsRoomId = some roomId)
    (hr : alookup roomId s.rooms = some r)
    (hnodup : r.peers.Nodup)
    (hopen : ∀ p ∈ r.peers.erase wsId, sockOpen s p = true) :
    ((leaveRoom s wsId).outbox = s.outbox ++
        (r.peers.erase wsId).map (fun p => (p, SMsg.peerLeft roomId wsId))) ∧
    (∀ p ∈ r.peers.erase wsId,
        ((leaveRoom s wsId).outbox.drop s.outbox.length).count
          (p, SMsg.peerLeft roomId wsId) = 1) ∧
    (alookup roomId (leaveRoom s wsId).rooms = none ↔ r.peers.erase wsId = []) := by
  have hbq : broadcastToRoom
      { s with rooms := aset roomId { r with peers := r.peers.erase wsId } s.rooms }
      roomId (SMsg.peerLeft roomId wsId) none =
      { s with
        rooms := aset roomId { r with peers := r.peers.erase wsId } s.rooms,
        outbox := s.outbox ++
          (r.peers.erase wsId).map (fun p => (p, SMsg.peerLeft roomId wsId)) } := by
    have hfilter : (r.peers.erase wsId).filter
        (fun pid => if (none : Option String) = some pid then false else
          sockOpen
            { s with rooms := aset roomId { r with peers := r.peers.erase wsId } s.rooms }
            pid) =
        r.peers.erase wsId := by
      apply List.filter_eq_self.mpr
      intro p hp
      have hso : sockOpen
          { s with rooms := aset roomId { r with peers := r.peers.erase wsId } s.rooms } p =
          sockOpen s p := rfl
      simp [hso, hopen p hp]
    unfold broadcastToRoom
    rw [alookup_aset_self]
    simp only [hfilter]
  have hleave : leaveRoom s wsId =
      setSockRoom
        (if r.peers.erase wsId = [] then
          { s with
            rooms := aerase roomId (aset roomId { r with peers := r.peers.erase wsId } s.rooms),
            outbox := s.outbox ++
              (r.peers.erase wsId).map (fun p => (p, SMsg.peerLeft roomId wsId)) }
        else
          { s with
            rooms := aset roomId { r with peers := r.peers.erase wsId } s.rooms,
            outbox := s.outbox ++
              (r.peers.erase wsId).map (fun p => (p, SMsg.peerLeft roomId wsId)) })
        wsId none := by
    unfold leaveRoom
    simp only [hw, hwr, hr, hbq]
  have h1 : (leaveRoom s wsId).outbox = s.outbox ++
      (r.peers.erase wsId).map (fun p => (p, SMsg.peerLeft roomId wsId)) := by
    rw [hleave]
    by_cases he : r.peers.erase wsId = [] <;> simp [he, setSockRoom]
  refine ⟨h1, ?_, ?_⟩
  · intro p hp
    rw [h1, List.drop_left, count_pair_map]
    exact List.count_eq_one_of_mem (hnodup.erase wsId) hp
  · rw [hleave]
    by_cases he : r.peers.erase wsId = []
    · rw [if_pos he, setSockRoom_rooms]
      show alookup roomId (aerase roomId _) = none ↔ _
      rw [alookup_aerase_self]
      simp [he]
    · rw [if_neg he, setSockRoom_rooms]
      show alookup roomId (aset roomId { r with peers := r.peers.erase wsId } s.rooms) =
          none ↔ _
      rw [alookup_aset_self]
      simp [he]

/-- A world for the C8 witness: room `"r"` with members `"a"`, `"b"`, `"c"`,
all open; `"a"` leaves. -/
def c8srv : Server :=
  ⟨[("r", ⟨"r", ["a", "b", "c"], 0⟩)],
   [("a", ⟨"a", some "u", some "r", true⟩), ("b", ⟨"b", some "v", some "r", true⟩),
    ("c", ⟨"c", none, some "r", true⟩)], []⟩

/-- Witness for `leaveRoom_spec` at a concrete input. -/
theorem leaveRoom_spec_witness :
    ((leaveRoom c8srv "a").outbox = [] ++
        (["a", "b", "c"].erase "a").map (fun p => (p, SMsg.peerLeft "r" "a"))) ∧
    (alookup "r" (leaveRoom c8srv "a").rooms = none ↔ (["a", "b", "c"].erase "a") = []) :=
  ⟨(leaveRoom_spec c8srv "a" "r" ⟨"a", some "u", some "r", true⟩ ⟨"r", ["a", "b", "c"], 0⟩
      (by decide) (by decide) (by decide) (by decide) (by decide)).1,
   (leaveRoom_spec c8srv "a" "r" ⟨"a", some "u", some "r", true⟩ ⟨"r", ["a", "b", "c"], 0⟩
      (by decide) (by decide) (by decide) (by decide) (by decide)).2.2⟩

/-! ## C6 — room-membership exclusivity -/

/-- Inbound events that change room membership: a `join` message, a `leave`
message, and a transport close/error. -/
inductive SrvEv where
  | evJoin (roomId wsId : String) (username : Option String)
  | evLeave (wsId : String)
  | evClose (wsId : String)
deriving DecidableEq

/-- One server step per inbound event: `join`/`leave` go through
`handleSignalingMessage`; transport close/error invoke `RoomManager.leaveRoom`
directly, as the `ws.on('close')`/`ws.on('error')` handlers do. -/
def srvStep (s : Server) (e : SrvEv) : Server :=
  match e with
  | SrvEv.evJoin roomId wsId uname => handleSignalingMessage s wsId (InMsg.join roomId uname) 0
  | SrvEv.evLeave wsId => handleSignalingMessage s wsId (InMsg.leave "") 0
  | SrvEv.evClose wsId => leaveRoom s wsId

def srvRun (s : Server) : List SrvEv → Server
  | [] => s
  | e :: rest => srvRun (srvStep s e) rest

/-- `ws.roomId` of a connection, read through the world state. -/
def sockRoomOf (s : Server) (pid : String) : Option String :=
  (alookup pid s.socks).bind (fun w => w.wsRoomId)

/-- The connection appears in the member map of some room. -/
def inAnyRoom (s : Server) (c : String) : Prop :=
  ∃ kv ∈ s.rooms, c ∈ kv.2.peers

instance (s : Server) (c : String) : Decidable (inAnyRoom s c) := by
  unfold inAnyRoom
  infer_instance

/-- No connection appears in the member maps of two distinct rooms. -/
def roomsDisjoint (s : Server) : Prop :=
  s.rooms.Pairwise (fun a b => ∀ c ∈ a.2.peers, c ∉ b.2.peers)

instance (s : Server) : Decidable (roomsDisjoint s) := by
  unfold roomsDisjoint
  infer_instance

/-- A world with one open connection `"c"` and no rooms. -/
def c6srv : Server := ⟨[], [("c", ⟨"c", none, none, true⟩)], []⟩

def c6run : Server :=
  srvRun c6srv [SrvEv.evJoin "A" "c" (some "u"), SrvEv.evJoin "B" "c" (some "u")]

/-- C6 counterexample: a connection that sends `join` for a second room is
still a member of the first — `joinRoom` never removes the socket from its
previous room, so after joining `"A"` and then `"B"`, connection `"c"` sits in
both member maps and the at-most-one-room invariant fails. -/
theorem join_second_room_cex :
    (∃ kv ∈ c6run.rooms, kv.1 = "A" ∧ "c" ∈ kv.2.peers) ∧
    (∃ kv ∈ c6run.rooms, kv.1 = "B" ∧ "c" ∈ kv.2.peers) ∧
    ¬ roomsDisjoint c6run := by decide

/-- The inductive invariant: room keys are unique, every member's `ws.roomId`
points back at its room, and each room's member list has no duplicates. -/
def InvS (s : Server) : Prop :=
  (s.rooms.map Prod.fst).Nodup ∧
  (∀ kv ∈ s.rooms, ∀ p ∈ kv.2.peers, sockRoomOf s p = some kv.1) ∧
  (∀ kv ∈ s.rooms, kv.2.peers.Nodup)

instance (s : Server) : Decidable (InvS s) := by
  unfold InvS
  infer_instance

/-- The guard that repairs the claim: a `join` is admitted only when the
connection exists and is not currently a member of any room. -/
def joinGuard (s : Server) (e : SrvEv) : Bool :=
  match e with
  | SrvEv.evJoin _ wsId _ => !(decide (inAnyRoom s wsId)) && (alookup wsId s.socks).isSome
  | _ => true

def guardedRun (s : Server) : List SrvEv → Bool
  | [] => true
  | e :: rest => joinGuard s e && guardedRun (srvStep s e) rest

theorem mem_of_alookup {α : Type} {k : String} {v : α} {l : List (String × α)}
    (h : alookup k l = some v) : (k, v) ∈ l := by
  induction l with
  | nil => simp [alookup] at h
  | cons kv rest ih =>
    by_cases hk : kv.1 = k
    · simp only [alookup, if_pos hk, Option.some.injEq] at h
      exact List.mem_cons.mpr (Or.inl (by rw [← hk, ← h]))
    · simp only [alookup, if_neg hk] at h
      exact List.mem_cons.mpr (Or.inr (ih h))

theorem isSome_alookup_of_mem_keys {α : Type} {k : String} {l : List (String × α)}
    (h : k ∈ l.map Prod.fst) : (alookup k l).isSome := by
  induction l with
  | nil => simp at h
  | cons kv rest ih =>
    by_cases hk : kv.1 = k
    · simp [alookup, hk]
    · simp only [List.map_cons, List.mem_cons] at h
      rcases h with h | h
      · exact absurd h.symm hk
      · simpa [alookup, hk] using ih h

theorem not_mem_keys_of_alookup_none {α : Type} {k : String} {l : List (String × α)}
    (h : alookup k l = none) : k ∉ l.map Prod.fst := by
  intro hmem
  have := isSome_alookup_of_mem_keys hmem
  rw [h] at this
  simp at this

theorem mem_aerase_iff {α : Type} (k : String) (l : List (String × α)) (kv : String × α) :
    kv ∈ aerase k l ↔ kv ∈ l ∧ kv.1 ≠ k := by
  simp [aerase, List.mem_filter]

theorem keys_aerase_sublist {α : Type} (k : String) (l : List (String × α)) :
    ((aerase k l).map Prod.fst).Sublist (l.map Prod.fst) :=
  (List.filter_sublist l).map Prod.fst

theorem sockRoomOf_after_set (s X : Server) (pid : String) (r0 : Option String)
    (hX : X.socks = s.socks) (w0 : Sock) (hw0 : alookup pid s.socks = some w0) (q : String) :
    sockRoomOf (setSockRoom X pid r0) q = if q = pid then r0 else sockRoomOf s q := by
  unfold sockRoomOf setSockRoom
  rw [hX, alookup_setRoomMap]
  by_cases hq : q = pid
  · subst hq
    rw [hw0]
    simp
  · rw [if_neg hq]
    cases alookup q s.socks <;> simp [hq]

theorem alookup_setUserMap (pid : String) (u : Option String) (q : String)
    (l : List (String × Sock)) :
    alookup q (l.map (fun kv =>
        (kv.1, if kv.1 = pid then { kv.2 with username := u } else kv.2))) =
      (alookup q l).map (fun v => if q = pid then { v with username := u } else v) := by
  induction l with
  | nil => rfl
  | cons kv rest ih =>
    by_cases hq : kv.1 = q
    · simp [alookup, hq]
    · simpa [alookup, hq] using ih

theorem sockRoomOf_setSockUsername (s : Server) (pid : String) (u : Option String)
    (q : String) : sockRoomOf (setSockUsername s pid u) q = sockRoomOf s q := by
  unfold sockRoomOf setSockUsername
  rw [alookup_setUserMap]
  cases alookup q s.socks with
  | none => rfl
  | some w => by_cases hq : q = pid <;> simp [hq]

theorem alookup_socks_setSockUsername (s : Server) (pid : String) (u : Option String)
    (q : String) :
    (alookup q (setSockUsername s pid u).socks).isSome = (alookup q s.socks).isSome := by
  show (alookup q (s.socks.map _)).isSome = _
  rw [alookup_setUserMap]
  cases alookup q s.socks <;> rfl

/-- `leaveRoom` in the live-room case, with the `match`es resolved. -/
theorem leaveRoom_unfold (s : Server) (wsId rid : String) (w : Sock) (r : RoomM)
    (hw : alookup wsId s.socks = some w) (hwr : w.wsRoomId = some rid)
    (hr : alookup rid s.rooms = some r) :
    leaveRoom s wsId =
      setSockRoom
        (if r.peers.erase wsId = [] then
          { broadcastToRoom
              { s with rooms := aset rid { r with peers := r.peers.erase wsId } s.rooms }
              rid (SMsg.peerLeft rid wsId) none with
            rooms := aerase rid (broadcastToRoom
              { s with rooms := aset rid { r with peers := r.peers.erase wsId } s.rooms }
              rid (SMsg.peerLeft rid wsId) none).rooms }
        else
          broadcastToRoom
            { s with rooms := aset rid { r with peers := r.peers.erase wsId } s.rooms }
            rid (SMsg.peerLeft rid wsId) none)
        wsId none := by
  unfold leaveRoom
  simp only [hw, hwr, hr]

theorem InvS_leaveRoom (s : Server) (wsId : String) (h : InvS s) :
    InvS (leaveRoom s wsId) := by
  obtain ⟨hkeys, hmemInv, hnodups⟩ := h
  cases hw : alookup wsId s.socks with
  | none =>
    simp only [leaveRoom, hw]
    exact ⟨hkeys, hmemInv, hnodups⟩
  | some w =>
    cases hwr : w.wsRoomId with
    | none =>
      simp only [leaveRoom, hw, hwr]
      exact ⟨hkeys, hmemInv, hnodups⟩
    | some rid =>
      cases hr : alookup rid s.rooms with
      | none =>
        simp only [leaveRoom, hw, hwr, hr]
        exact ⟨hkeys, hmemInv, hnodups⟩
      | some r =>
        rw [leaveRoom_unfold s wsId rid w r hw hwr hr]
        have hrm : (rid, r) ∈ s.rooms := mem_of_alookup hr
        have hridkeys : rid ∈ s.rooms.map Prod.fst :=
          List.mem_map.mpr ⟨(rid, r), hrm, rfl⟩
        have hA : (aset rid { r with peers := r.peers.erase wsId } s.rooms).map Prod.fst =
            s.rooms.map Prod.fst := keys_aset_of_mem _ _ _ hridkeys
        have hsrOld : sockRoomOf s wsId = some rid := by
          unfold sockRoomOf
          rw [hw]
          exact hwr
        -- how the final state reads `ws.roomId`
        by_cases hrem : r.peers.erase wsId = []
        · rw [if_pos hrem]
          have hXsocks : ({ broadcastToRoom
              { s with rooms := aset rid { r with peers := r.peers.erase wsId } s.rooms }
              rid (SMsg.peerLeft rid wsId) none with
            rooms := aerase rid (broadcastToRoom
              { s with rooms := aset rid { r with peers := r.peers.erase wsId } s.rooms }
              rid (SMsg.peerLeft rid wsId) none).rooms } : Server).socks = s.socks := by
            show (broadcastToRoom _ _ _ _).socks = s.socks
            rw [broadcastToRoom_socks]
          have hsr := fun q => sockRoomOf_after_set s _ wsId none hXsocks w hw q
          refine ⟨?_, ?_, ?_⟩
          · show ((aerase rid (broadcastToRoom _ _ _ _).rooms).map Prod.fst).Nodup
            rw [broadcastToRoom_rooms]
            exact hkeys.sublist (by rw [← hA]; exact keys_aerase_sublist _ _)
          · intro kv hkv p hp
            rw [hsr p]
            replace hkv : kv ∈ aerase rid (broadcastToRoom _ _ _ _).rooms := hkv
            rw [broadcastToRoom_rooms] at hkv
            obtain ⟨hkvA, hkvne⟩ := (mem_aerase_iff _ _ _).mp hkv
            rcases (mem_aset_iff _ _ _ _).mp hkvA with rfl | ⟨hkvold, _⟩
            · exact absurd rfl hkvne
            · have hold := hmemInv kv hkvold p hp
              have hpne : p ≠ wsId := by
                intro hpe
                rw [hpe, hsrOld] at hold
                exact hkvne (Option.some.inj hold).symm
              rw [if_neg hpne]
              exact hold
          · intro kv hkv
            replace hkv : kv ∈ aerase rid (broadcastToRoom _ _ _ _).rooms := hkv
            rw [broadcastToRoom_rooms] at hkv
            obtain ⟨hkvA, hkvne⟩ := (mem_aerase_iff _ _ _).mp hkv
            rcases (mem_aset_iff _ _ _ _).mp hkvA with rfl | ⟨hkvold, _⟩
            · exact absurd rfl hkvne
            · exact hnodups kv hkvold
        · rw [if_neg hrem]
          have hXsocks : (broadcastToRoom
              { s with rooms := aset rid { r with peers := r.peers.erase wsId } s.rooms }
              rid (SMsg.peerLeft rid wsId) none).socks = s.socks := by
            rw [broadcastToRoom_socks]
          have hsr := fun q => sockRoomOf_after_set s _ wsId none hXsocks w hw q
          refine ⟨?_, ?_, ?_⟩
          · show ((broadcastToRoom _ _ _ _).rooms.map Prod.fst).Nodup
            rw [broadcastToRoom_rooms, hA]
            exact hkeys
          · intro kv hkv p hp
            rw [hsr p]
            replace hkv : kv ∈ (broadcastToRoom _ _ _ _).rooms := hkv
            rw [broadcastToRoom_rooms] at hkv
            rcases (mem_aset_iff _ _ _ _).mp hkv with rfl | ⟨hkvold, hkvne⟩
            · have hpmem : p ∈ r.peers.erase wsId := hp
              obtain ⟨hpne, hpold⟩ := ((hnodups _ hrm).mem_erase_iff).mp hpmem
              rw [if_neg hpne]
              exact hmemInv (rid, r) hrm p hpold
            · have hold := hmemInv kv hkvold p hp
              have hpne : p ≠ wsId := by
                intro hpe
                rw [hpe, hsrOld] at hold
                exact hkvne (Option.some.inj hold).symm
              rw [if_neg hpne]
              exact hold
          · intro kv hkv
            replace hkv : kv ∈ (broadcastToRoom _ _ _ _).rooms := hkv
            rw [broadcastToRoom_rooms] at hkv
            rcases (mem_aset_iff _ _ _ _).mp hkv with rfl | ⟨hkvold, _⟩
            · exact (hnodups _ hrm).erase wsId
            · exact hnodups kv hkvold

theorem sockRoomOf_congr {X Y : Server} (h : X.socks = Y.socks) (q : String) :
    sockRoomOf X q = sockRoomOf Y q := by
  unfold sockRoomOf
  rw [h]

theorem InvS_joinRoom (s : Server) (rid wsId : String) (now : Nat)
    (hinv : InvS s) (hguard : ¬ inAnyRoom s wsId) (hsock : (alookup wsId s.socks).isSome) :
    InvS (joinRoom s rid wsId now) := by
  obtain ⟨hkeys, hmemInv, hnodups⟩ := hinv
  obtain ⟨w0, hw0⟩ := Option.isSome_iff_exists.mp hsock
  unfold joinRoom
  cases hcase : alookup rid s.rooms with
  | some r =>
    simp only [hcase, Option.isSome_some, if_true]
    have hrm : (rid, r) ∈ s.rooms := mem_of_alookup hcase
    have hwnotin : wsId ∉ r.peers := fun hmem => hguard ⟨(rid, r), hrm, hmem⟩
    have hpins : pinsert wsId r.peers = r.peers ++ [wsId] := by
      rw [pinsert, if_neg hwnotin]
    have hridkeys : rid ∈ s.rooms.map Prod.fst := List.mem_map.mpr ⟨(rid, r), hrm, rfl⟩
    refine ⟨?_, ?_, ?_⟩
    · show ((broadcastToRoom _ _ _ _).rooms.map Prod.fst).Nodup
      rw [broadcastToRoom_rooms, setSockRoom_rooms]
      show ((aset rid { r with peers := pinsert wsId r.peers } s.rooms).map Prod.fst).Nodup
      rw [keys_aset_of_mem _ _ _ hridkeys]
      exact hkeys
    · intro kv hkv p hp
      rw [sockRoomOf_congr (pushOut_socks _ _ _) p,
        sockRoomOf_congr (broadcastToRoom_socks _ _ _ _) p,
        sockRoomOf_after_set s
          (⟨aset rid { r with peers := pinsert wsId r.peers } s.rooms, s.socks, s.outbox⟩ :
            Server) wsId (some rid) rfl w0 hw0 p]
      replace hkv : kv ∈ (broadcastToRoom _ _ _ _).rooms := hkv
      rw [broadcastToRoom_rooms, setSockRoom_rooms] at hkv
      replace hkv : kv ∈ aset rid { r with peers := pinsert wsId r.peers } s.rooms := hkv
      rcases (mem_aset_iff _ _ _ _).mp hkv with rfl | ⟨hkvold, hkvne⟩
      · replace hp : p ∈ pinsert wsId r.peers := hp
        rw [hpins] at hp
        rcases List.mem_append.mp hp with hpold | hpnew
        · have hpne : p ≠ wsId := fun hpe => hwnotin (hpe ▸ hpold)
          rw [if_neg hpne]
          exact hmemInv (rid, r) hrm p hpold
        · rw [if_pos (List.mem_singleton.mp hpnew)]
      · have hpne : p ≠ wsId := fun hpe => hguard ⟨kv, hkvold, hpe ▸ hp⟩
        rw [if_neg hpne]
        exact hmemInv kv hkvold p hp
    · intro kv hkv
      replace hkv : kv ∈ (broadcastToRoom _ _ _ _).rooms := hkv
      rw [broadcastToRoom_rooms, setSockRoom_rooms] at hkv
      replace hkv : kv ∈ aset rid { r with peers := pinsert wsId r.peers } s.rooms := hkv
      rcases (mem_aset_iff _ _ _ _).mp hkv with rfl | ⟨hkvold, _⟩
      · show (pinsert wsId r.peers).Nodup
        rw [hpins]
        simp [List.nodup_append, hnodups _ hrm, hwnotin]
      · exact hnodups kv hkvold
  | none =>
    simp only [hcase, Option.isSome_none, Bool.false_eq_true, if_false, createRoom,
      alookup_aset_self]
    have hpins : pinsert wsId ([] : List String) = [wsId] := by
      simp [pinsert]
    have hnokey : rid ∉ s.rooms.map Prod.fst := not_mem_keys_of_alookup_none hcase
    have hkeysA : ((aset rid (⟨rid, [], now⟩ : RoomM) s.rooms).map Prod.fst).Nodup := by
      rw [keys_aset_of_not_mem _ _ _ hnokey]
      simp only [List.nodup_append, List.nodup_cons, List.nodup_nil]
      refine ⟨hkeys, by simp, ?_⟩
      intro a ha hb
      simp only [List.mem_singleton] at hb
      exact hnokey (hb ▸ ha)
    have hridkeysA : rid ∈ (aset rid (⟨rid, [], now⟩ : RoomM) s.rooms).map Prod.fst := by
      rw [keys_aset_of_not_mem _ _ _ hnokey]
      simp
    refine ⟨?_, ?_, ?_⟩
    · show ((broadcastToRoom _ _ _ _).rooms.map Prod.fst).Nodup
      rw [broadcastToRoom_rooms, setSockRoom_rooms]
      show ((aset rid { (⟨rid, [], now⟩ : RoomM) with peers := pinsert wsId [] }
        (aset rid (⟨rid, [], now⟩ : RoomM) s.rooms)).map Prod.fst).Nodup
      rw [keys_aset_of_mem _ _ _ hridkeysA]
      exact hkeysA
    · intro kv hkv p hp
      rw [sockRoomOf_congr (pushOut_socks _ _ _) p,
        sockRoomOf_congr (broadcastToRoom_socks _ _ _ _) p,
        sockRoomOf_after_set s
          (⟨aset rid { (⟨rid, [], now⟩ : RoomM) with peers := pinsert wsId [] }
            (aset rid (⟨rid, [], now⟩ : RoomM) s.rooms), s.socks, s.outbox⟩ : Server)
          wsId (some rid) rfl w0 hw0 p]
      replace hkv : kv ∈ (broadcastToRoom _ _ _ _).rooms := hkv
      rw [broadcastToRoom_rooms, setSockRoom_rooms] at hkv
      replace hkv : kv ∈ aset rid { (⟨rid, [], now⟩ : RoomM) with peers := pinsert wsId [] }
          (aset rid (⟨rid, [], now⟩ : RoomM) s.rooms) := hkv
      rcases (mem_aset_iff _ _ _ _).mp hkv with rfl | ⟨hkvmid, hkvne⟩
      · replace hp : p ∈ pinsert wsId [] := hp
        rw [hpins, List.mem_singleton] at hp
        rw [if_pos hp]
      · rcases (mem_aset_iff _ _ _ _).mp hkvmid with rfl | ⟨hkvold, _⟩
        · exact absurd rfl hkvne
        · have hpne : p ≠ wsId := fun hpe => hguard ⟨kv, hkvold, hpe ▸ hp⟩
          rw [if_neg hpne]
          exact hmemInv kv hkvold p hp
    · intro kv hkv
      replace hkv : kv ∈ (broadcastToRoom _ _ _ _).rooms := hkv
      rw [broadcastToRoom_rooms, setSockRoom_rooms] at hkv
      replace hkv : kv ∈ aset rid { (⟨rid, [], now⟩ : RoomM) with peers := pinsert wsId [] }
          (aset rid (⟨rid, [], now⟩ : RoomM) s.rooms) := hkv
      rcases (mem_aset_iff _ _ _ _).mp hkv with rfl | ⟨hkvmid, hkvne⟩
      · show (pinsert wsId []).Nodup
        rw [hpins]
        simp
      · rcases (mem_aset_iff _ _ _ _).mp hkvmid with rfl | ⟨hkvold, _⟩
        · exact absurd rfl hkvne
        · exact hnodups kv hkvold


theorem InvS_setSockUsername (s : Server) (pid : String) (u : Option String)
    (h : InvS s) : InvS (setSockUsername s pid u) := by
  obtain ⟨hkeys, hmemInv, hnodups⟩ := h
  refine ⟨hkeys, ?_, hnodups⟩
  intro kv hkv p hp
  rw [sockRoomOf_setSockUsername]
  exact hmemInv kv hkv p hp

theorem disjoint_of_InvS (s : Server) (h : InvS s) : roomsDisjoint s := by
  obtain ⟨hkeys, hmemInv, _⟩ := h
  have hpw : s.rooms.Pairwise (fun a b => a.1 ≠ b.1) := List.pairwise_map.mp hkeys
  unfold roomsDisjoint
  refine List.Pairwise.imp_of_mem ?_ hpw
  intro a b ha hb hne c hca hcb
  have h1 := hmemInv a ha c hca
  have h2 := hmemInv b hb c hcb
  rw [h1] at h2
  exact hne (Option.some.inj h2)

theorem guardedRun_preserves (evs : List SrvEv) : ∀ (s : Server), InvS s →
    guardedRun s evs = true → InvS (srvRun s evs) := by
  induction evs with
  | nil => exact fun s hinv _ => hinv
  | cons e rest ih =>
    intro s hinv hg
    rw [guardedRun, Bool.and_eq_true] at hg
    refine ih (srvStep s e) ?_ hg.2
    have hg1 := hg.1
    cases e with
    | evJoin rid wsId uname =>
      rw [joinGuard, Bool.and_eq_true, Bool.not_eq_eq_eq_not, Bool.not_true,
        decide_eq_false_iff_not] at hg1
      show InvS (handleSignalingMessage s wsId (InMsg.join rid uname) 0)
      unfold handleSignalingMessage
      refine InvS_joinRoom _ _ _ _ (InvS_setSockUsername s wsId _ hinv) ?_ ?_
      · exact hg1.1
      · rw [alookup_socks_setSockUsername]
        exact hg1.2
    | evLeave wsId => exact InvS_leaveRoom s wsId hinv
    | evClose wsId => exact InvS_leaveRoom s wsId hinv

/-- C6 (amended): the at-most-one-room invariant holds exactly for guarded
event sequences — ones in which every `join` comes from a connection that
exists and is not currently a member of any room (every room change is
preceded by a leave).  Starting from a state satisfying the registry invariant
`InvS`, any guarded sequence of join/leave/close events leaves the member maps
of distinct rooms disjoint.  (Without the guard the property fails:
`join_second_room_cex`.) -/
theorem srvRun_at_most_one_room (s : Server) (evs : List SrvEv)
    (hinv : InvS s) (hg : guardedRun s evs = true) :
    roomsDisjoint (srvRun s evs) :=
  disjoint_of_InvS _ (guardedRun_preserves evs s hinv hg)

/-- Witness for `srvRun_at_most_one_room`: `"c"` joins `"A"`, leaves, then
joins `"B"`; the final registry has `"c"` in at most one room. -/
theorem srvRun_at_most_one_room_witness :
    (InvS c6srv ∧ guardedRun c6srv
      [SrvEv.evJoin "A" "c" (some "u"), SrvEv.evLeave "c",
       SrvEv.evJoin "B" "c" (some "u")] = true) ∧
    roomsDisjoint (srvRun c6srv
      [SrvEv.evJoin "A" "c" (some "u"), SrvEv.evLeave "c",
       SrvEv.evJoin "B" "c" (some "u")]) :=
  ⟨⟨by decide, by decide⟩,
   srvRun_at_most_one_room c6srv
     [SrvEv.evJoin "A" "c" (some "u"), SrvEv.evLeave "c",
      SrvEv.evJoin "B" "c" (some "u")] (by decide) (by decide)⟩

/-! ## Base64 (`btoa` in `sendFile`, `atob` in the chunk handler)

A chunk's payload is a base64 string; we model it as the list of 6-bit values
of its characters.  `encodeB64` is `btoa` applied to the binary string built
byte-by-byte with `String.fromCharCode`; a trailing group of 2 or 3 sextets
encodes 1 or 2 bytes (the `=` padding carries no information and is dropped).
`decodeB64` is `atob` combined with the receiver's `charCodeAt` loop.  `atob`
throws on a leftover single character (length ≡ 1 mod 4); that case never
arises from `encodeB64`, and the model returns `[]` for it. -/

def encodeB64 : List Nat → List Nat
  | [] => []
  | [b0] => [b0 / 4, b0 % 4 * 16]
  | [b0, b1] => [b0 / 4, b0 % 4 * 16 + b1 / 16, b1 % 16 * 4]
  | b0 :: b1 :: b2 :: rest =>
    b0 / 4 :: (b0 % 4 * 16 + b1 / 16) :: (b1 % 16 * 4 + b2 / 64) :: b2 % 64 ::
      encodeB64 rest

def decodeB64 : List Nat → List Nat
  | [] => []
  | [_] => []
  | [s0, s1] => [s0 * 4 + s1 / 16]
  | [s0, s1, s2] => [s0 * 4 + s1 / 16, s1 % 16 * 16 + s2 / 4]
  | s0 :: s1 :: s2 :: s3 :: rest =>
    (s0 * 4 + s1 / 16) :: (s1 % 16 * 16 + s2 / 4) :: (s2 % 4 * 64 + s3) ::
      decodeB64 rest

theorem decode_encode : ∀ (l : List Nat), (∀ b ∈ l, b < 256) →
    decodeB64 (encodeB64 l) = l
  | [], _ => rfl
  | [b0], h => by
    have h0 : b0 < 256 := h b0 (by simp)
    simp only [encodeB64, decodeB64, List.cons.injEq, and_true]
    omega
  | [b0, b1], h => by
    have h0 : b0 < 256 := h b0 (by simp)
    have h1 : b1 < 256 := h b1 (by simp)
    simp only [encodeB64, decodeB64, List.cons.injEq, and_true]
    constructor <;> omega
  | b0 :: b1 :: b2 :: rest, h => by
    have h0 : b0 < 256 := h b0 (by simp)
    have h1 : b1 < 256 := h b1 (by simp)
    have h2 : b2 < 256 := h b2 (by simp)
    have ih := decode_encode rest (fun b hb => h b (by simp [hb]))
    simp only [encodeB64, decodeB64, ih, List.cons.injEq, and_true]
    refine ⟨?_, ?_, ?_⟩ <;> omega

/-! ## Client-side data model (`src/frontend/src/types`, `useStore`) -/

inductive TStatus where
  | pending
  | transferring
  | completed
  | failed
deriving DecidableEq

inductive TDir where
  | dsend
  | dreceive
deriving DecidableEq

/-- `FileMetadata`. -/
structure FileMeta where
  fid : String
  filename : String
  size : Nat
  mime : String
  senderId : String
  senderName : Option String
deriving DecidableEq

/-- `FileTransfer` (the fields the hook reads or writes). -/
structure Transfer where
  tid : String
  filename : String
  size : Nat
  mime : String
  progress : Nat
  status : TStatus
  direction : TDir
  peerId : String
  peerName : Option String
  blob : Option (List Nat)
  error : Option String
deriving DecidableEq

/-- One entry of `fileBuffersRef`: metadata, ordered chunk buffer, cumulative
received size. -/
structure FileBuffer where
  metadata : FileMeta
  chunks : List (List Nat)
  receivedSize : Nat
deriving DecidableEq

/-- `PeerConnection` (id is the assoc key; `hasDataChannel` abstracts the
`RTCDataChannel` created by the initiator). -/
structure PCModel where
  pcid : String
  username : Option String
  connected : Bool
  hasDataChannel : Bool
deriving DecidableEq

/-- Data-channel envelopes.  A chunk's `data` is the base64 payload as a
sextet list. -/
inductive DCMsg where
  | chat (content : String)
  | fileStart (metadata : FileMeta)
  | chunk (fileId : String) (index : Nat) (data : List Nat)
  | done (fileId : String)
deriving DecidableEq

/-- Client-side outbound signaling effects we track (an `offer` emitted by
`initiateConnection`). -/
inductive ClientOut where
  | outOffer (targetId : String)
deriving DecidableEq

/-- The client state touched by the hook: the store's `peerConnections`,
`transfers` and `messages`, the hook's `fileBuffersRef`, and the emitted
signaling messages. -/
structure Client where
  peerConnections : List (String × PCModel)
  transfers : List Transfer
  fileBuffers : List (String × FileBuffer)
  messages : List String
  outMsgs : List ClientOut
deriving DecidableEq

def emptyClient : Client := ⟨[], [], [], [], []⟩

/-- `Math.round((a / b) * 100)` under exact rational arithmetic:
`⌊(100·a)/b + 1/2⌋ = (200·a + b) / (2·b)` (JS `Math.round` rounds halves
up).  For `b = 0` JS produces `NaN`; the model returns `0` — no claim below
concerns a zero declared size. -/
def roundPct (a b : Nat) : Nat := (2 * (a * 100) + b) / (2 * b)

/-- `handleDataChannelMessage` (receive side of the chunk protocol). -/
def handleDataChannelMessage (c : Client) (senderId : String) (m : DCMsg) : Client :=
  match m with
  | DCMsg.chat content => { c with messages := c.messages ++ [content] }
  | DCMsg.fileStart md =>
    { c with
      fileBuffers := aset md.fid ⟨md, [], 0⟩ c.fileBuffers,
      transfers := c.transfers ++ [{
        tid := md.fid, filename := md.filename, size := md.size, mime := md.mime,
        progress := 0, status := TStatus.transferring, direction := TDir.dreceive,
        peerId := senderId, peerName := md.senderName, blob := none, error := none }] }
  | DCMsg.chunk fid _ data =>
    match alookup fid c.fileBuffers with
    | none => c
    | some b =>
      let bytes := decodeB64 data
      let newSize := b.receivedSize + bytes.length
      { c with
        fileBuffers :=
          aset fid { b with chunks := b.chunks ++ [bytes], receivedSize := newSize }
            c.fileBuffers,
        transfers := c.transfers.map (fun t =>
          if t.tid = fid then { t with progress := roundPct newSize b.metadata.size }
          else t) }
  | DCMsg.done fid =>
    match alookup fid c.fileBuffers with
    | none => c
    | some b =>
      { c with
        transfers := c.transfers.map (fun t =>
          if t.tid = fid then
            { t with
              status := TStatus.completed, progress := 100,
              blob := some b.chunks.flatten }
          else t),
        fileBuffers := aerase fid c.fileBuffers }

/-- `handlePeerLeft`: drop the peer connection and mark that peer's
`transferring` transfers as failed.  Note it does **not** touch
`fileBuffersRef`. -/
def handlePeerLeft (c : Client) (pid : String) : Client :=
  { c with
    peerConnections := aerase pid c.peerConnections,
    transfers := c.transfers.map (fun t =>
      if t.peerId = pid ∧ t.status = TStatus.transferring then
        { t with status := TStatus.failed, error := some "Peer disconnected" }
      else t) }

/-- `handlePeerJoined`: deliberately does nothing — the new peer initiates. -/
def handlePeerJoined (c : Client) (_info : PeerInfoM) : Client := c

/-- `initiateConnection`: create the peer connection and its data channel and
emit an offer. -/
def initiateConnection (c : Client) (targetId : String) (uname : Option String) : Client :=
  { c with
    peerConnections :=
      aset targetId ⟨targetId, uname, false, true⟩ c.peerConnections,
    outMsgs := c.outMsgs ++ [ClientOut.outOffer targetId] }

/-- `handlePeerList`: the freshly joined peer initiates a connection to every
peer in the received list. -/
def handlePeerList (c : Client) (ps : List PeerInfoM) : Client :=
  ps.foldl (fun acc p => initiateConnection acc p.pid p.username) c

/-! ## The sending loop of `sendFile` -/

def CHUNK_SIZE : Nat := 64 * 1024

/-- The `reader.onload` loop of `sendFile`: slice `CHUNK_SIZE` bytes, base64
them into a `chunk` message with an increasing index, record the progress
`Math.round((offset / size) * 100)` after the chunk, and continue while
`offset < file.size` — under the loop invariant `off + rem.length = total`
that condition is `chunk.length < rem.length`, which is how the model phrases
it.  After the final chunk a `done` message is emitted. -/
def sendLoop (fid : String) (total off idx : Nat) (rem : List Nat) :
    List DCMsg × List Nat :=
  if h : (rem.take CHUNK_SIZE).length < rem.length then
    let next := sendLoop fid total (off + (rem.take CHUNK_SIZE).length) (idx + 1)
      (rem.drop CHUNK_SIZE)
    (DCMsg.chunk fid idx (encodeB64 (rem.take CHUNK_SIZE)) :: next.1,
     roundPct (off + (rem.take CHUNK_SIZE).length) total :: next.2)
  else
    ([DCMsg.chunk fid idx (encodeB64 (rem.take CHUNK_SIZE)), DCMsg.done fid],
     [roundPct (off + (rem.take CHUNK_SIZE).length) total])
termination_by rem.length
decreasing_by
  simp only [List.length_take, List.length_drop, CHUNK_SIZE] at h ⊢
  omega

/-- The wire sequence `sendFile` emits on an open data channel:
`file-start`, the chunks in order, `done`. -/
def sendFileEvents (md : FileMeta) (bytes : List Nat) : List DCMsg :=
  DCMsg.fileStart md :: (sendLoop md.fid bytes.length 0 0 bytes).1

/-- The successive progress values `sendFile` stores for the transfer. -/
def sendProgressList (fid : String) (bytes : List Nat) : List Nat :=
  (sendLoop fid bytes.length 0 0 bytes).2

/-- Feed a list of data-channel messages from one sender through the receive
handler. -/
def receiveEvents (c : Client) (senderId : String) (ms : List DCMsg) : Client :=
  ms.foldl (fun acc m => handleDataChannelMessage acc senderId m) c

def findT : List Transfer → String → Option Transfer
  | [], _ => none
  | t :: rest, fid => if t.tid = fid then some t else findT rest fid

/-- The first transfer with the given id (display lookup). -/
def findTransfer (c : Client) (fid : String) : Option Transfer :=
  findT c.transfers fid

/-! ## C9 — initiator asymmetry -/

/-- A peer connection entry exists with its data channel created. -/
def GoodPC (c : Client) (k : String) : Prop :=
  ∃ pc, alookup k c.peerConnections = some pc ∧ pc.hasDataChannel = true

theorem GoodPC_initiate (c : Client) (q : String) (u : Option String) (k : String)
    (h : GoodPC c k) : GoodPC (initiateConnection c q u) k := by
  obtain ⟨pc, hpc, hdc⟩ := h
  by_cases hk : k = q
  · subst hk
    exact ⟨⟨k, u, false, true⟩, alookup_aset_self _ _ _, rfl⟩
  · refine ⟨pc, ?_, hdc⟩
    show alookup k (aset q ⟨q, u, false, true⟩ c.peerConnections) = some pc
    rw [alookup_aset_ne _ _ _ _ hk]
    exact hpc

theorem GoodPC_initiate_self (c : Client) (q : String) (u : Option String) :
    GoodPC (initiateConnection c q u) q :=
  ⟨⟨q, u, false, true⟩, alookup_aset_self _ _ _, rfl⟩

theorem GoodPC_fold (qs : List PeerInfoM) : ∀ (c : Client) (k : String),
    GoodPC c k → GoodPC (handlePeerList c qs) k := by
  induction qs with
  | nil => exact fun c k h => h
  | cons q rest ih =>
    intro c k h
    exact ih (initiateConnection c q.pid q.username) k (GoodPC_initiate c _ _ k h)

theorem handlePeerList_out (ps : List PeerInfoM) : ∀ (c : Client),
    (handlePeerList c ps).outMsgs =
      c.outMsgs ++ ps.map (fun p => ClientOut.outOffer p.pid) := by
  induction ps with
  | nil => intro c; simp [handlePeerList]
  | cons q rest ih =>
    intro c
    show (handlePeerList (initiateConnection c q.pid q.username) rest).outMsgs = _
    rw [ih]
    simp [initiateConnection]

/-- C9: the peer that receives the initial `peer-list` initiates a connection
to every peer in that list — each one gets a peer-connection entry with a
created data channel, and exactly the offers for the listed peers are emitted,
in list order — whereas a peer that receives `peer-joined` initiates nothing
and changes no state at all (the handler body only logs). -/
theorem initiator_asymmetry (c : Client) (ps : List PeerInfoM) (info : PeerInfoM) :
    (∀ p ∈ ps, GoodPC (handlePeerList c ps) p.pid) ∧
    (handlePeerList c ps).outMsgs =
      c.outMsgs ++ ps.map (fun p => ClientOut.outOffer p.pid) ∧
    handlePeerJoined c info = c := by
  refine ⟨?_, handlePeerList_out ps c, rfl⟩
  induction ps generalizing c with
  | nil => intro p hp; simp at hp
  | cons q rest ih =>
    intro p hp
    rcases List.mem_cons.mp hp with rfl | hp'
    · exact GoodPC_fold rest _ _ (GoodPC_initiate_self c p.pid p.username)
    · exact ih (initiateConnection c q.pid q.username) p hp'

/-- Witness for `initiator_asymmetry` at a concrete input. -/
theorem initiator_asymmetry_witness :
    GoodPC (handlePeerList emptyClient [⟨"x", some "u", 1⟩]) "x" ∧
    (handlePeerList emptyClient [⟨"x", some "u", 1⟩]).outMsgs =
      [] ++ ([⟨"x", some "u", 1⟩] : List PeerInfoM).map (fun p => ClientOut.outOffer p.pid) ∧
    handlePeerJoined emptyClient ⟨"y", none, 2⟩ = emptyClient :=
  ⟨(initiator_asymmetry emptyClient [⟨"x", some "u", 1⟩] ⟨"y", none, 2⟩).1
      (⟨"x", some "u", 1⟩ : PeerInfoM) (by simp),
   (initiator_asymmetry emptyClient [⟨"x", some "u", 1⟩] ⟨"y", none, 2⟩).2.1,
   (initiator_asymmetry emptyClient [⟨"x", some "u", 1⟩] ⟨"y", none, 2⟩).2.2⟩

/-! ## C4 — peer-left during a transfer -/

/-- The transfer and buffer state used by the C4 counterexample: a
`transferring` receive from peer `"p"` with an open, empty file buffer. -/
def c4transfer : Transfer :=
  ⟨"f", "a.bin", 10, "bin", 0, TStatus.transferring, TDir.dreceive, "p", some "P",
    none, none⟩

def c4meta : FileMeta := ⟨"f", "a.bin", 10, "bin", "p", some "P"⟩

def c4client : Client := ⟨[("p", ⟨"p", some "P", true, true⟩)], [c4transfer],
  [("f", ⟨c4meta, [], 0⟩)], [], []⟩

def c4afterLeft : Client := handlePeerLeft c4client "p"

def c4afterChunk : Client :=
  handleDataChannelMessage c4afterLeft "p" (DCMsg.chunk "f" 0 (encodeB64 [7]))

/-- C4 counterexample: after `peer-left` for `"p"` the transfer is `failed`,
but a further chunk for its transfer-id is still processed — the buffered
chunks grow, the received size increases and the progress is updated —
contradicting “no further chunk message carrying that transfer-id is
accepted”. -/
theorem chunk_after_peer_left_cex :
    (findTransfer c4afterLeft "f").map (fun t => t.status) = some TStatus.failed ∧
    (alookup "f" c4afterLeft.fileBuffers).map (fun b => b.receivedSize) = some 0 ∧
    (alookup "f" c4afterChunk.fileBuffers).map (fun b => b.receivedSize) = some 1 ∧
    (alookup "f" c4afterChunk.fileBuffers).map (fun b => b.chunks) = some [[7]] ∧
    (findTransfer c4afterChunk "f").map (fun t => t.progress) = some 10 ∧
    (findTransfer c4afterLeft "f").map (fun t => t.progress) ≠ some 10 := by decide

/-- C4 (amended): a `peer-left` for peer `P` marks every `transferring`
transfer with `peerId = P` as `failed` with error `Peer disconnected` (and no
transfer of `P` stays `transferring`); however the handler does not clear the
file buffer or guard the chunk path, so a later chunk carrying such a
transfer-id is still accepted: its bytes are appended to the buffer, the
received size grows, and the progress is rewritten — only the `failed` status
itself survives (the chunk path never writes `status`). -/
theorem peer_left_fails_transfers (c : Client) (pid : String) :
    ((handlePeerLeft c pid).fileBuffers = c.fileBuffers) ∧
    (∀ t ∈ c.transfers, t.peerId = pid → t.status = TStatus.transferring →
      { t with status := TStatus.failed, error := some "Peer disconnected" } ∈
        (handlePeerLeft c pid).transfers) ∧
    (∀ t ∈ (handlePeerLeft c pid).transfers, t.peerId = pid →
      t.status ≠ TStatus.transferring) ∧
    (∀ (senderId fid : String) (idx : Nat) (data : List Nat) (b : FileBuffer),
      alookup fid (handlePeerLeft c pid).fileBuffers = some b →
      (handleDataChannelMessage (handlePeerLeft c pid) senderId
          (DCMsg.chunk fid idx data)).fileBuffers =
        aset fid
          { b with
            chunks := b.chunks ++ [decodeB64 data],
            receivedSize := b.receivedSize + (decodeB64 data).length }
          (handlePeerLeft c pid).fileBuffers ∧
      (handleDataChannelMessage (handlePeerLeft c pid) senderId
          (DCMsg.chunk fid idx data)).transfers.map (fun t => t.status) =
        (handlePeerLeft c pid).transfers.map (fun t => t.status)) := by
  refine ⟨rfl, ?_, ?_, ?_⟩
  · intro t ht hpid hst
    exact List.mem_map.mpr ⟨t, ht, by rw [if_pos ⟨hpid, hst⟩]⟩
  · intro t ht hpid
    obtain ⟨t0, ht0, heq⟩ := List.mem_map.mp ht
    by_cases hc : t0.peerId = pid ∧ t0.status = TStatus.transferring
    · rw [if_pos hc] at heq
      rw [← heq]
      intro hcontra
      simp at hcontra
    · rw [if_neg hc] at heq
      subst heq
      intro hst
      exact hc ⟨hpid, hst⟩
  · intro senderId fid idx data b hb
    unfold handleDataChannelMessage
    simp only [hb]
    refine ⟨?_, ?_⟩
    · first
      | rfl
      | trivial
    show ((handlePeerLeft c pid).transfers.map _).map _ = _
    rw [List.map_map]
    apply List.map_congr_left
    intro t _
    by_cases ht : t.tid = fid
    · simp [ht]
    · simp [ht]

/-! ## C3 — progress arithmetic -/

set_option maxRecDepth 4000 in
theorem sendLoop_progress (fid : String) (total : Nat) :
    ∀ (n : Nat) (rem : List Nat) (off idx : Nat), rem.length ≤ n →
    (sendLoop fid total off idx rem).2 =
      (List.range ((rem.length - 1) / CHUNK_SIZE + 1)).map
        (fun k => roundPct (off + min ((k + 1) * CHUNK_SIZE) rem.length) total) := by
  intro n
  induction n with
  | zero =>
    intro rem off idx hle
    have hnil : rem = [] := List.length_eq_zero.mp (Nat.le_zero.mp hle)
    subst hnil
    rw [sendLoop]
    simp [CHUNK_SIZE]
  | succ n ih =>
    intro rem off idx hle
    rw [sendLoop]
    by_cases hc : (rem.take CHUNK_SIZE).length < rem.length
    · rw [dif_pos hc]
      have hlen : (rem.take CHUNK_SIZE).length = CHUNK_SIZE := by
        rw [List.length_take]
        rw [List.length_take] at hc
        omega
      have hCpos : 0 < CHUNK_SIZE := by norm_num [CHUNK_SIZE]
      have hgt : CHUNK_SIZE < rem.length := by
        rw [List.length_take] at hc
        omega
      have hrec := ih (rem.drop CHUNK_SIZE) (off + CHUNK_SIZE) (idx + 1)
        (by rw [List.length_drop]; omega)
      show roundPct (off + (rem.take CHUNK_SIZE).length) total ::
          (sendLoop fid total (off + (rem.take CHUNK_SIZE).length) (idx + 1)
            (rem.drop CHUNK_SIZE)).2 = _
      have hdiv : (rem.length - 1) / CHUNK_SIZE =
          (rem.length - CHUNK_SIZE - 1) / CHUNK_SIZE + 1 := by
        have h1 : rem.length - 1 = (rem.length - CHUNK_SIZE - 1) + CHUNK_SIZE := by omega
        rw [h1, Nat.add_div_right _ hCpos]
      rw [hlen, hdiv, List.range_succ_eq_map, List.map_cons, List.map_map]
      congr 1
      · exact congrArg (fun x => roundPct x total)
          (by simp only [CHUNK_SIZE] at *; omega)
      · rw [hrec, List.length_drop]
        apply List.map_congr_left
        intro k _
        simp only [Function.comp_apply]
        exact congrArg (fun x => roundPct x total)
          (by simp only [CHUNK_SIZE] at *; omega)
    · rw [dif_neg hc]
      have hCpos : 0 < CHUNK_SIZE := by norm_num [CHUNK_SIZE]
      have hlen : (rem.take CHUNK_SIZE).length = rem.length := by
        rw [List.length_take]
        rw [List.length_take] at hc
        omega
      have hle2 : rem.length ≤ CHUNK_SIZE := by
        rw [List.length_take] at hc
        omega
      have hdiv : (rem.length - 1) / CHUNK_SIZE = 0 := by
        apply Nat.div_eq_of_lt
        omega
      rw [hlen, hdiv]
      show [roundPct (off + rem.length) total] = _
      rw [(by decide : (0:Nat) + 1 = 1), (by decide : List.range 1 = [0])]
      simp only [List.map_cons, List.map_nil]
      exact congrArg (fun x => [roundPct x total])
        (by simp only [CHUNK_SIZE] at *; omega)

/-- C3 (amended): the reported progress is `Math.round`, not `floor`, of the
percentage.  Receive side: handling a chunk stores
`roundPct (receivedSize + decodedLength) declaredSize` — i.e.
`⌊(200·bytes + size) / (2·size)⌋`, round-half-up of `bytes/size·100` — into
the transfer.  Send side: the successive progress values of `sendFile` on a
file of `S` bytes are `roundPct (min ((k+1)·CHUNK_SIZE) S) S` for
`k = 0, …, ⌊(S-1)/CHUNK_SIZE⌋`.  Consequently receive-side progress can reach
100 before the final chunk (`progress_uses_round_cex`). -/
theorem handle_chunk_transfers (c : Client) (senderId fid : String) (idx : Nat)
    (data : List Nat) (b : FileBuffer) (hb : alookup fid c.fileBuffers = some b) :
    (handleDataChannelMessage c senderId (DCMsg.chunk fid idx data)).transfers =
      c.transfers.map (fun t =>
        if t.tid = fid then
          { t with
            progress := roundPct (b.receivedSize + (decodeB64 data).length) b.metadata.size }
        else t) := by
  unfold handleDataChannelMessage
  simp only [hb]

theorem progress_round_spec :
    (∀ (c : Client) (senderId fid : String) (idx : Nat) (data : List Nat) (b : FileBuffer),
      alookup fid c.fileBuffers = some b →
      (handleDataChannelMessage c senderId (DCMsg.chunk fid idx data)).transfers =
        c.transfers.map (fun t =>
          if t.tid = fid then
            { t with
              progress := roundPct (b.receivedSize + (decodeB64 data).length) b.metadata.size }
          else t)) ∧
    (∀ (fid : String) (bytes : List Nat),
      sendProgressList fid bytes =
        (List.range ((bytes.length - 1) / CHUNK_SIZE + 1)).map
          (fun k => roundPct (min ((k + 1) * CHUNK_SIZE) bytes.length) bytes.length)) := by
  constructor
  · exact handle_chunk_transfers
  · intro fid bytes
    unfold sendProgressList
    rw [sendLoop_progress fid bytes.length bytes.length bytes 0 0 (le_refl _)]
    apply List.map_congr_left
    intro k _
    rw [Nat.zero_add]

/-- The C3 counterexample: a 65537-byte file.  After the first 64 KiB chunk the
receive handler stores `Math.round(65536/65537·100) = 100`, while the claimed
`floor` is `99` — and a second chunk is still outstanding, so progress hits
100 before the final chunk. -/
def c3meta : FileMeta := ⟨"f", "big.bin", 65537, "bin", "p", some "P"⟩

def c3s1 : Client := handleDataChannelMessage emptyClient "p" (DCMsg.fileStart c3meta)

def c3s2 : Client :=
  handleDataChannelMessage c3s1 "p" (DCMsg.chunk "f" 0 (encodeB64 (List.replicate 65536 0)))

theorem progress_uses_round_cex :
    (findTransfer c3s2 "f").map (fun t => t.progress) = some 100 ∧
    65536 * 100 / 65537 = 99 ∧ (100 : Nat) ≠ 99 := by
  have hrt : decodeB64 (encodeB64 (List.replicate 65536 (0 : Nat))) =
      List.replicate 65536 0 := by
    apply decode_encode
    intro b hb
    rw [List.eq_of_mem_replicate hb]
    norm_num
  refine ⟨?_, by norm_num, by norm_num⟩
  have hb : alookup "f" c3s1.fileBuffers = some ⟨c3meta, [], 0⟩ := rfl
  have h2 := handle_chunk_transfers c3s1 "p" "f" 0
    (encodeB64 (List.replicate 65536 0)) ⟨c3meta, [], 0⟩ hb
  rw [hrt, List.length_replicate] at h2
  show ((findT (handleDataChannelMessage c3s1 "p"
    (DCMsg.chunk "f" 0 (encodeB64 (List.replicate 65536 0)))).transfers "f").map
      (fun t => t.progress)) = some 100
  rw [h2, show c3s1.transfers = [⟨"f", "big.bin", 65537, "bin", 0, TStatus.transferring,
    TDir.dreceive, "p", some "P", none, none⟩] from rfl]
  simp only [List.map_cons, List.map_nil]
  norm_num [findT, c3meta, roundPct]

/-- Witness for `progress_round_spec` at concrete inputs. -/
theorem progress_round_spec_witness :
    ((handleDataChannelMessage c3s1 "p" (DCMsg.chunk "f" 0 (encodeB64 [7]))).transfers =
      c3s1.transfers.map (fun t =>
        if t.tid = "f" then
          { t with
            progress := roundPct (0 + (decodeB64 (encodeB64 [7])).length) c3meta.size }
        else t)) ∧
    (sendProgressList "f" [1, 2, 3] =
      (List.range ((([1, 2, 3] : List Nat).length - 1) / CHUNK_SIZE + 1)).map
        (fun k => roundPct (min ((k + 1) * CHUNK_SIZE) 3) 3)) :=
  ⟨progress_round_spec.1 c3s1 "p" "f" 0 (encodeB64 [7]) ⟨c3meta, [], 0⟩ rfl,
   progress_round_spec.2 "f" [1, 2, 3]⟩

/-- Witness for `peer_left_fails_transfers` at a concrete input. -/
theorem peer_left_fails_transfers_witness :
    ({ c4transfer with status := TStatus.failed, error := some "Peer disconnected" } ∈
      (handlePeerLeft c4client "p").transfers) ∧
    ((handleDataChannelMessage (handlePeerLeft c4client "p") "p"
        (DCMsg.chunk "f" 0 (encodeB64 [7]))).fileBuffers =
      aset "f"
        { (⟨c4meta, [], 0⟩ : FileBuffer) with
          chunks := [] ++ [decodeB64 (encodeB64 [7])],
          receivedSize := 0 + (decodeB64 (encodeB64 [7])).length }
        (handlePeerLeft c4client "p").fileBuffers) :=
  ⟨(peer_left_fails_transfers c4client "p").2.1 c4transfer (by decide) rfl rfl,
   ((peer_left_fails_transfers c4client "p").2.2.2 "p" "f" 0 (encodeB64 [7])
      ⟨c4meta, [], 0⟩ rfl).1⟩

/-! ## C5 — round trip of a chunked file transfer -/

theorem handle_chunk_buffers (c : Client) (senderId fid : String) (idx : Nat)
    (data : List Nat) (b : FileBuffer) (hb : alookup fid c.fileBuffers = some b) :
    (handleDataChannelMessage c senderId (DCMsg.chunk fid idx data)).fileBuffers =
      aset fid
        { b with
          chunks := b.chunks ++ [decodeB64 data],
          receivedSize := b.receivedSize + (decodeB64 data).length }
        c.fileBuffers := by
  unfold handleDataChannelMessage
  simp only [hb]

theorem handle_done_transfers (c : Client) (senderId fid : String) (b : FileBuffer)
    (hb : alookup fid c.fileBuffers = some b) :
    (handleDataChannelMessage c senderId (DCMsg.done fid)).transfers =
      c.transfers.map (fun t =>
        if t.tid = fid then
          { t with
            status := TStatus.completed, progress := 100,
            blob := some b.chunks.flatten }
        else t) := by
  unfold handleDataChannelMessage
  simp only [hb]

theorem receiveEvents_cons (c : Client) (senderId : String) (m : DCMsg)
    (ms : List DCMsg) :
    receiveEvents c senderId (m :: ms) =
      receiveEvents (handleDataChannelMessage c senderId m) senderId ms := rfl

theorem c5aux (fid senderId : String) (total : Nat) :
    ∀ (n : Nat) (rem : List Nat) (cl : Client) (buf : FileBuffer) (t0 : Transfer)
      (off idx : Nat),
      rem.length ≤ n →
      (∀ b ∈ rem, b < 256) →
      alookup fid cl.fileBuffers = some buf →
      cl.transfers = [t0] →
      t0.tid = fid →
      (receiveEvents cl senderId (sendLoop fid total off idx rem).1).transfers =
        [{ t0 with
            status := TStatus.completed, progress := 100,
            blob := some (buf.chunks.flatten ++ rem) }] := by
  intro n
  induction n with
  | zero =>
    intro rem cl buf t0 off idx hle hval hbuf htr ht0
    have hnil : rem = [] := List.length_eq_zero.mp (Nat.le_zero.mp hle)
    subst hnil
    rw [sendLoop, dif_neg (by simp)]
    rw [receiveEvents_cons, receiveEvents_cons]
    have hdec : decodeB64 (encodeB64 (List.take CHUNK_SIZE ([] : List Nat))) = [] := rfl
    have hcb := handle_chunk_buffers cl senderId fid idx
      (encodeB64 (List.take CHUNK_SIZE ([] : List Nat))) buf hbuf
    have hct := handle_chunk_transfers cl senderId fid idx
      (encodeB64 (List.take CHUNK_SIZE ([] : List Nat))) buf hbuf
    have hb2 : alookup fid (handleDataChannelMessage cl senderId
        (DCMsg.chunk fid idx (encodeB64 (List.take CHUNK_SIZE ([] : List Nat))))).fileBuffers =
        some { buf with
          chunks := buf.chunks ++ [decodeB64 (encodeB64 (List.take CHUNK_SIZE ([] : List Nat)))],
          receivedSize := buf.receivedSize + (decodeB64 (encodeB64
            (List.take CHUNK_SIZE ([] : List Nat)))).length } := by
      rw [hcb]
      exact alookup_aset_self _ _ _
    show (receiveEvents _ senderId [DCMsg.done fid]).transfers = _
    rw [receiveEvents_cons]
    show (handleDataChannelMessage _ senderId (DCMsg.done fid)).transfers = _
    rw [handle_done_transfers _ senderId fid _ hb2, hct, htr]
    simp only [List.map_cons, List.map_nil, if_pos ht0]
    show [{ t0 with
      status := TStatus.completed, progress := 100,
      blob := some (buf.chunks ++
        [decodeB64 (encodeB64 (List.take CHUNK_SIZE ([] : List Nat)))]).flatten }] = _
    simp [List.flatten_append]
    rfl
  | succ n ih =>
    intro rem cl buf t0 off idx hle hval hbuf htr ht0
    rw [sendLoop]
    by_cases hc : (rem.take CHUNK_SIZE).length < rem.length
    · rw [dif_pos hc]
      rw [receiveEvents_cons]
      have hdec : decodeB64 (encodeB64 (rem.take CHUNK_SIZE)) = rem.take CHUNK_SIZE :=
        decode_encode _ (fun b hb => hval b (List.take_subset _ _ hb))
      have hcb := handle_chunk_buffers cl senderId fid idx
        (encodeB64 (rem.take CHUNK_SIZE)) buf hbuf
      have hct := handle_chunk_transfers cl senderId fid idx
        (encodeB64 (rem.take CHUNK_SIZE)) buf hbuf
      have hb2 : alookup fid (handleDataChannelMessage cl senderId
          (DCMsg.chunk fid idx (encodeB64 (rem.take CHUNK_SIZE)))).fileBuffers =
          some { buf with
            chunks := buf.chunks ++ [decodeB64 (encodeB64 (rem.take CHUNK_SIZE))],
            receivedSize := buf.receivedSize + (decodeB64 (encodeB64
              (rem.take CHUNK_SIZE))).length } := by
        rw [hcb]
        exact alookup_aset_self _ _ _
      have ht2 : (handleDataChannelMessage cl senderId
          (DCMsg.chunk fid idx (encodeB64 (rem.take CHUNK_SIZE)))).transfers =
          [{ t0 with
              progress := roundPct (buf.receivedSize + (decodeB64 (encodeB64
                (rem.take CHUNK_SIZE))).length) buf.metadata.size }] := by
        rw [hct, htr]
        simp only [List.map_cons, List.map_nil, if_pos ht0]
      have hdropn : (rem.drop CHUNK_SIZE).length ≤ n := by
        rw [List.length_take] at hc
        rw [List.length_drop]
        simp only [CHUNK_SIZE] at hc ⊢
        omega
      rw [ih (rem.drop CHUNK_SIZE) _ _ _ (off + (rem.take CHUNK_SIZE).length) (idx + 1)
        hdropn (fun b hb => hval b (List.drop_subset _ _ hb)) hb2 ht2 ht0]
      simp only [hdec, List.flatten_append, List.flatten_cons, List.flatten_nil,
        List.append_nil, List.append_assoc, List.take_append_drop]
    · rw [dif_neg hc]
      rw [receiveEvents_cons, receiveEvents_cons]
      have htake : rem.take CHUNK_SIZE = rem := by
        rw [List.length_take] at hc
        exact List.take_of_length_le (by omega)
      have hdec : decodeB64 (encodeB64 (rem.take CHUNK_SIZE)) = rem := by
        rw [htake]
        exact decode_encode _ hval
      have hcb := handle_chunk_buffers cl senderId fid idx
        (encodeB64 (rem.take CHUNK_SIZE)) buf hbuf
      have hct := handle_chunk_transfers cl senderId fid idx
        (encodeB64 (rem.take CHUNK_SIZE)) buf hbuf
      have hb2 : alookup fid (handleDataChannelMessage cl senderId
          (DCMsg.chunk fid idx (encodeB64 (rem.take CHUNK_SIZE)))).fileBuffers =
          some { buf with
            chunks := buf.chunks ++ [decodeB64 (encodeB64 (rem.take CHUNK_SIZE))],
            receivedSize := buf.receivedSize + (decodeB64 (encodeB64
              (rem.take CHUNK_SIZE))).length } := by
        rw [hcb]
        exact alookup_aset_self _ _ _
      show (receiveEvents _ senderId [DCMsg.done fid]).transfers = _
      rw [receiveEvents_cons]
      show (handleDataChannelMessage _ senderId (DCMsg.done fid)).transfers = _
      rw [handle_done_transfers _ senderId fid _ hb2, hct, htr]
      simp only [List.map_cons, List.map_nil, if_pos ht0]
      show [{ t0 with
        status := TStatus.completed, progress := 100,
        blob := some (buf.chunks ++ [decodeB64 (encodeB64 (rem.take CHUNK_SIZE))]).flatten }] = _
      simp [hdec, List.flatten_append]

/-- C5: round trip — a file sent as fixed-size 64 KiB base64 chunks and
reassembled by the receiver in emission order yields, at the `done` event, a
blob equal to the original bytes, on a completed transfer record. -/
theorem file_roundtrip (md : FileMeta) (bytes : List Nat) (senderId : String)
    (h : ∀ b ∈ bytes, b < 256) :
    (receiveEvents emptyClient senderId (sendFileEvents md bytes)).transfers =
      [{ tid := md.fid, filename := md.filename, size := md.size, mime := md.mime,
         progress := 100, status := TStatus.completed, direction := TDir.dreceive,
         peerId := senderId, peerName := md.senderName,
         blob := some bytes, error := none }] := by
  unfold sendFileEvents
  rw [receiveEvents_cons]
  have hstart : handleDataChannelMessage emptyClient senderId (DCMsg.fileStart md) =
      ⟨[], [⟨md.fid, md.filename, md.size, md.mime, 0, TStatus.transferring,
        TDir.dreceive, senderId, md.senderName, none, none⟩],
       [(md.fid, ⟨md, [], 0⟩)], [], []⟩ := rfl
  rw [hstart]
  rw [c5aux md.fid senderId bytes.length bytes.length bytes _ ⟨md, [], 0⟩
    ⟨md.fid, md.filename, md.size, md.mime, 0, TStatus.transferring,
      TDir.dreceive, senderId, md.senderName, none, none⟩ 0 0 (le_refl _) h
    (by simp [alookup]) rfl rfl]
  simp

/-- Concrete metadata for the C5 witness. -/
def c5meta : FileMeta := ⟨"f", "a.bin", 3, "bin", "p", some "P"⟩

/-- Witness for `file_roundtrip` at a concrete input. -/
theorem file_roundtrip_witness :
    (∀ b ∈ [1, 2, 255], b < 256) ∧
    (receiveEvents emptyClient "p" (sendFileEvents c5meta [1, 2, 255])).transfers =
      [{ tid := "f", filename := "a.bin", size := 3, mime := "bin",
         progress := 100, status := TStatus.completed, direction := TDir.dreceive,
         peerId := "p", peerName := some "P",
         blob := some [1, 2, 255], error := none }] :=
  ⟨by decide, file_roundtrip c5meta [1, 2, 255] "p" (by decide)⟩

end Aeroshare
